import Mathlib

/-!
Shallow embedding of the drawing/history/layer engine of
`src/src/app/page.tsx` (the "Canvas Studio" React drawing application).

Conventions used throughout this development:

* Pixels are RGBA quadruples of naturals (8-bit channels in the browser).
* A canvas (`Surface`) is a width, a height and a total pixel function;
  the function is only meaningful on coordinates inside the bounds.
* JavaScript numbers used as coordinates are modelled as `Int`.
* Canvas 2D context operations (`fillRect`, `drawImage`, `putImageData`,
  `rect`/`stroke`/`arc`, and the buffer reset performed by assigning
  `canvas.width`) are external browser APIs; they are embedded following
  their standard HTML-canvas semantics, on which the source relies.
* History entries in the source are `toDataURL()` strings, i.e. lossless
  encodings of the whole canvas raster; the history mechanism never
  inspects an entry, so the log is modelled generically over the snapshot
  payload type `α`.
-/

/-- RGBA pixel with natural-number channels (0..255 in the browser). -/
structure Pixel where
  r : Nat
  g : Nat
  b : Nat
  a : Nat
deriving DecidableEq

/-- Opaque white `#FFFFFF`, the background fill color used by the source. -/
def whitePixel : Pixel := ⟨255, 255, 255, 255⟩

/-- Transparent black `rgba(0,0,0,0)`, the content of a freshly reset
canvas buffer and of a new layer's transparent background fill. -/
def transparentPixel : Pixel := ⟨0, 0, 0, 0⟩

/-- Source-over alpha compositing of `src` onto `dst` (the default
`globalCompositeOperation` of a 2D context, used by `drawImage`). -/
def overPixel (dst src : Pixel) : Pixel :=
  if src.a = 0 then dst
  else if src.a = 255 then src
  else
    ⟨(src.r * src.a + dst.r * (255 - src.a)) / 255,
     (src.g * src.a + dst.g * (255 - src.a)) / 255,
     (src.b * src.a + dst.b * (255 - src.a)) / 255,
     src.a + dst.a * (255 - src.a) / 255⟩

/-- A raster surface: a fixed-size RGBA pixel buffer. The pixel function
is total; only coordinates with `x < width` and `y < height` are part of
the buffer. -/
structure Surface where
  width : Nat
  height : Nat
  pix : Nat → Nat → Pixel

/-- A `w × h` canvas after `fillStyle = "#FFFFFF"; fillRect(0, 0, w, h)`. -/
def whiteSurface (w h : Nat) : Surface := ⟨w, h, fun _ _ => whitePixel⟩

/-- `ctx.drawImage(src, 0, 0)`: source-over composite of the source
surface onto the destination, clipped to the source's extent. -/
def drawImage (dst src : Surface) : Surface :=
  { dst with
    pix := fun x y =>
      if x < src.width ∧ y < src.height then overPixel (dst.pix x y) (src.pix x y)
      else dst.pix x y }

/-- The `Layer` record of page.tsx. The source's id string `layer-${k}`
and name string `Layer ${k}` each carry the single number `k` produced at
creation time, and two such strings are equal iff their numbers are; both
fields are therefore modelled by that number. `canvas` is null (`none`)
until a backing canvas element is attached. -/
structure Layer where
  id : Nat
  name : Nat
  visible : Bool
  canvas : Option Surface

/-- The layer-related component state: the `layers` array and the
`activeLayerIndex` state variable. -/
structure LayerState where
  layers : List Layer
  activeLayerIndex : Nat

/-- The initial state: `[{ id: "layer-1", name: "Layer 1", visible: true,
canvas: null }]` with active index 0. -/
def initialLayerState : LayerState :=
  { layers := [{ id := 1, name := 1, visible := true, canvas := none }]
    activeLayerIndex := 0 }

/-- The transparent `w × h` backing canvas created for a new layer
(`fillStyle = "rgba(255, 255, 255, 0)"` fills with a fully transparent
color, leaving every pixel transparent). -/
def blankLayerSurface (w h : Nat) : Surface := ⟨w, h, fun _ _ => transparentPixel⟩

/-- `addLayer` from page.tsx: creates a layer whose id and name are
derived from `layers.length + 1`, with a transparent backing canvas sized
`w × h` (the main canvas dimensions), appends it, and makes it active. -/
def addLayer (st : LayerState) (w h : Nat) : LayerState :=
  { layers := st.layers ++
      [{ id := st.layers.length + 1
         name := st.layers.length + 1
         visible := true
         canvas := some (blankLayerSurface w h) }]
    activeLayerIndex := st.layers.length }

/-- `deleteLayer` from page.tsx: guarded by `layers.length > 1`; the
layers array becomes `prev.filter((_, i) => i !== index)` (modelled by
filtering the index-annotated list), and when `activeLayerIndex >= index`
the active index becomes `Math.max(0, prev - 1)` (truncated subtraction on
`Nat`). When the guard fails nothing happens. -/
def deleteLayer (st : LayerState) (index : Nat) : LayerState :=
  if 1 < st.layers.length then
    { layers := (st.layers.enum.filter (fun p => p.1 != index)).map (fun p => p.2)
      activeLayerIndex :=
        if index ≤ st.activeLayerIndex then st.activeLayerIndex - 1
        else st.activeLayerIndex }
  else st

/-- One step of the `layers.forEach` walk in `redrawCanvas`: a layer is
drawn onto the accumulator only when `layer.visible && layer.canvas`. -/
def redrawStep (acc : Surface) (layer : Layer) : Surface :=
  if layer.visible then
    match layer.canvas with
    | some c => drawImage acc c
    | none => acc
  else acc

/-- `redrawCanvas` from page.tsx: clear, fill the whole `w × h` canvas
with opaque white, then draw each visible layer in array order
(bottom-to-top) with `drawImage`. -/
def redrawCanvas (w h : Nat) (layers : List Layer) : Surface :=
  layers.foldl redrawStep (whiteSurface w h)

/-- An `addLayer`/`deleteLayer` user action, for stating reachability of
layer states. -/
inductive LayerOp where
  | add (w h : Nat)
  | del (index : Nat)

/-- Apply one layer action. -/
def applyLayerOp (st : LayerState) : LayerOp → LayerState
  | .add w h => addLayer st w h
  | .del index => deleteLayer st index

/-- The layer state reached from the initial single-layer state by a
sequence of layer actions. -/
def applyLayerOps (ops : List LayerOp) : LayerState :=
  ops.foldl applyLayerOp initialLayerState

/-- The layer state reached by `n` consecutive `addLayer` actions and no
deletions. -/
def addsOnly (w h : Nat) : Nat → LayerState
  | 0 => initialLayerState
  | n + 1 => addLayer (addsOnly w h n) w h

/-- Whether `z` lies within `lw / 2` of the segment from `p` to `q`
(the stroked image of one path segment with `lineWidth = lw` and round
caps/joins). Encoded without division or square roots: the squared
distance `d` from `z` to the segment satisfies `4 d² ≤ lw²` scaled by the
squared segment length in the interior case. -/
def withinStroke (p q : Int × Int) (lw : Int) (z : Int × Int) : Bool :=
  let dx := q.1 - p.1
  let dy := q.2 - p.2
  let vx := z.1 - p.1
  let vy := z.2 - p.2
  let t := vx * dx + vy * dy
  let dd := dx * dx + dy * dy
  if t ≤ 0 then decide (4 * (vx * vx + vy * vy) ≤ lw * lw)
  else if dd ≤ t then
    decide (4 * ((z.1 - q.1) * (z.1 - q.1) + (z.2 - q.2) * (z.2 - q.2)) ≤ lw * lw)
  else decide (4 * ((vx * vx + vy * vy) * dd - t * t) ≤ lw * lw * dd)

/-- Membership of `z` in the stroked outline of
`ctx.rect(x, y, w, h); ctx.stroke()` with `lineWidth = lw`. Per the HTML
canvas semantics, `rect` adds the axis-aligned rectangle with corners
`(x, y)` and `(x + w, y + h)` (w and h may be negative), and stroking its
outline paints the points at distance at most `lw / 2` from the boundary:
the region between the outer expanded box and the open inner shrunk box.
Comparisons are doubled so that `lw / 2` needs no division. -/
def strokedRectMem (x y w h lw : Int) (z : Int × Int) : Bool :=
  (decide (2 * min x (x + w) - lw ≤ 2 * z.1) &&
   decide (2 * z.1 ≤ 2 * max x (x + w) + lw) &&
   decide (2 * min y (y + h) - lw ≤ 2 * z.2) &&
   decide (2 * z.2 ≤ 2 * max y (y + h) + lw)) &&
  !(decide (2 * min x (x + w) + lw < 2 * z.1) &&
    decide (2 * z.1 < 2 * max x (x + w) - lw) &&
    decide (2 * min y (y + h) + lw < 2 * z.2) &&
    decide (2 * z.2 < 2 * max y (y + h) - lw))

/-- Membership of `z` in the stroked circle centered at `c` with radius
`dist(c, q)` (`ctx.arc(c, √((q-c)·(q-c)), 0, 2π); ctx.stroke()` with
`lineWidth = lw`): `|dist(z, c) − dist(q, c)| ≤ lw / 2`. With
`s = dist(z, c)²` and `r = dist(q, c)²` this is equivalent to
`4s + 4r − lw² ≤ 0 ∨ (4s + 4r − lw²)² ≤ 64 s r`, which avoids roots. -/
def strokedCircleMem (c q : Int × Int) (lw : Int) (z : Int × Int) : Bool :=
  let s := (z.1 - c.1) * (z.1 - c.1) + (z.2 - c.2) * (z.2 - c.2)
  let r := (q.1 - c.1) * (q.1 - c.1) + (q.2 - c.2) * (q.2 - c.2)
  decide (4 * s + 4 * r ≤ lw * lw) ||
  decide ((4 * s + 4 * r - lw * lw) * (4 * s + 4 * r - lw * lw) ≤ 64 * s * r)

/-- The drawing modes of page.tsx. -/
inductive DrawingMode where
  | pen | eraser | rectangle | circle | line
deriving DecidableEq

/-- Paint the stroke color onto every pixel inside the stroked region. -/
def paintIf (s : Surface) (mem : Int × Int → Bool) (col : Pixel) : Surface :=
  { s with pix := fun x y => if mem ((x : Int), (y : Int)) then col else s.pix x y }

/-- Restore the pre-shape snapshot with `putImageData(shapePreviewImage)`
and stroke one candidate shape over it, as in the shape branch of
`draw` / `handleTouchMove`: rectangle `ctx.rect(anchor, point − anchor)`,
circle centered at the anchor through the current point, or line from the
anchor to the current point, stroked with the current color and
`lineWidth = brushSize`. -/
def drawShapePreview (pre : Surface) (mode : DrawingMode) (anchor point : Int × Int)
    (col : Pixel) (lw : Int) : Surface :=
  match mode with
  | .rectangle =>
      paintIf pre
        (fun z => strokedRectMem anchor.1 anchor.2 (point.1 - anchor.1) (point.2 - anchor.2) lw z)
        col
  | .circle => paintIf pre (fun z => strokedCircleMem anchor point lw z) col
  | .line => paintIf pre (fun z => withinStroke anchor point lw z) col
  | _ => pre

/-- `getCoordinates` from page.tsx: the client coordinates minus the
canvas bounding rect origin, or `(0, 0)` when no canvas rect is
available. No clamping to the canvas bounds is performed. -/
def getCoordinates (client : Int × Int) (rectOrigin : Option (Int × Int)) : Int × Int :=
  match rectOrigin with
  | some o => (client.1 - o.1, client.2 - o.2)
  | none => (0, 0)

/-- The point computed inline by the touch handlers:
`touch.clientX - (rect.left || 0)`, i.e. the raw client point when the
canvas rect is unavailable. -/
def touchPoint (client : Int × Int) (rectOrigin : Option (Int × Int)) : Int × Int :=
  match rectOrigin with
  | some o => (client.1 - o.1, client.2 - o.2)
  | none => client

/-- The undo/redo log: the `history` array plus the `historyIndex`
cursor (−1 before anything is saved). The payload of an entry (a
`toDataURL()` string in the source) is opaque to the mechanism. -/
structure HistoryLog (α : Type) where
  entries : List α
  cursor : Int
deriving DecidableEq

/-- `saveToHistory` from page.tsx: when `historyIndex < history.length -
1` the array is first truncated to `slice(0, historyIndex + 1)`; then the
snapshot is appended and the cursor incremented. -/
def saveToHistory {α : Type} (log : HistoryLog α) (snap : α) : HistoryLog α :=
  let kept :=
    if log.cursor < (log.entries.length : Int) - 1 then
      log.entries.take (log.cursor + 1).toNat
    else log.entries
  { entries := kept ++ [snap], cursor := log.cursor + 1 }

/-- The displayed canvas content together with the history log, the state
read and written by `handleUndo` / `handleRedo`. -/
structure CanvasHistState (α : Type) where
  canvas : α
  log : HistoryLog α
deriving DecidableEq

/-- `handleUndo` from page.tsx: when `historyIndex > 0` the cursor is
decremented and the entry at the new cursor is loaded and drawn over the
cleared canvas (when the lookup misses, no image ever loads and the
canvas stays as it was); otherwise nothing happens. The first component
is the entry applied. -/
def handleUndo {α : Type} (s : CanvasHistState α) : Option α × CanvasHistState α :=
  if 0 < s.log.cursor then
    match s.log.entries[(s.log.cursor - 1).toNat]? with
    | some e => (some e, ⟨e, ⟨s.log.entries, s.log.cursor - 1⟩⟩)
    | none => (none, ⟨s.canvas, ⟨s.log.entries, s.log.cursor - 1⟩⟩)
  else (none, s)

/-- `handleRedo` from page.tsx: when `historyIndex < history.length - 1`
the cursor is incremented and the entry at the new cursor is loaded and
drawn; otherwise nothing happens. -/
def handleRedo {α : Type} (s : CanvasHistState α) : Option α × CanvasHistState α :=
  if s.log.cursor < (s.log.entries.length : Int) - 1 then
    match s.log.entries[(s.log.cursor + 1).toNat]? with
    | some e => (some e, ⟨e, ⟨s.log.entries, s.log.cursor + 1⟩⟩)
    | none => (none, ⟨s.canvas, ⟨s.log.entries, s.log.cursor + 1⟩⟩)
  else (none, s)

/-- A committed drawing gesture: the canvas shows the new content `snap`
and `saveToHistory` checkpoints it (the tail of `stopDrawing`). -/
def pushCheckpoint {α : Type} (s : CanvasHistState α) (snap : α) : CanvasHistState α :=
  ⟨snap, saveToHistory s.log snap⟩

/-- `n` consecutive undo actions. -/
def undoN {α : Type} : Nat → CanvasHistState α → CanvasHistState α
  | 0, s => s
  | n + 1, s => undoN n (handleUndo s).2

/-- `n` consecutive redo actions. -/
def redoN {α : Type} : Nat → CanvasHistState α → CanvasHistState α
  | 0, s => s
  | n + 1, s => redoN n (handleRedo s).2

/-- The drawing-related component state of the editor: gesture flag,
tool configuration, gesture anchors, the 2D context's current path point
(established by `moveTo` / advanced by `lineTo`), the shape-preview
snapshot, the canvas raster, and the history log. -/
structure AppState where
  isDrawing : Bool
  drawingMode : DrawingMode
  color : Pixel
  brushSize : Int
  startPoint : Option (Int × Int)
  pathPoint : Option (Int × Int)
  shapePreviewImage : Option Surface
  canvas : Surface
  hist : HistoryLog Surface

/-- `ctx.lineTo(point); ctx.stroke()` for one freehand step: paint the
segment from the path's current point to `point`. -/
def strokeSegment (s : Surface) (p q : Int × Int) (col : Pixel) (lw : Int) : Surface :=
  paintIf s (fun z => withinStroke p q lw z) col

/-- The pen/eraser branch of `draw`: extend the open path to `point` and
stroke; with no current path point, `lineTo` only establishes one. -/
def penStep (s : AppState) (point : Int × Int) (col : Pixel) : AppState :=
  match s.pathPoint with
  | some prev =>
      { s with canvas := strokeSegment s.canvas prev point col s.brushSize
               pathPoint := some point }
  | none => { s with pathPoint := some point }

/-- `startDrawing` from page.tsx: open a gesture, record the down point;
for pen/eraser begin a path at the point, for shape tools snapshot the
canvas for previewing. -/
def startDrawing (s : AppState) (client : Int × Int) (o : Option (Int × Int)) : AppState :=
  let point := getCoordinates client o
  match s.drawingMode with
  | .pen | .eraser =>
      { s with isDrawing := true, startPoint := some point, pathPoint := some point }
  | _ =>
      { s with isDrawing := true, startPoint := some point
               shapePreviewImage := some s.canvas }

/-- `draw` from page.tsx: a pointer-move. Returns the state unchanged
when no gesture is open (`if (!isDrawing) return`); otherwise extends the
freehand stroke or redraws the shape preview at the new point. -/
def draw (s : AppState) (client : Int × Int) (o : Option (Int × Int)) : AppState :=
  if s.isDrawing = false then s
  else
    let point := getCoordinates client o
    match s.drawingMode with
    | .pen => penStep s point s.color
    | .eraser => penStep s point whitePixel
    | _ =>
      match s.startPoint, s.shapePreviewImage with
      | some anchor, some pre =>
          { s with canvas := drawShapePreview pre s.drawingMode anchor point s.color s.brushSize }
      | _, _ => s

/-- `handleTouchMove` from page.tsx: same guard and body as `draw`, with
the touch point computed inline. -/
def handleTouchMove (s : AppState) (client : Int × Int) (o : Option (Int × Int)) : AppState :=
  if s.isDrawing = false then s
  else
    let point := touchPoint client o
    match s.drawingMode with
    | .pen => penStep s point s.color
    | .eraser => penStep s point whitePixel
    | _ =>
      match s.startPoint, s.shapePreviewImage with
      | some anchor, some pre =>
          { s with canvas := drawShapePreview pre s.drawingMode anchor point s.color s.brushSize }
      | _, _ => s

/-- `stopDrawing` from page.tsx: only when a gesture is open, close it,
release the preview snapshot, and checkpoint the canvas into history. -/
def stopDrawing (s : AppState) : AppState :=
  if s.isDrawing then
    { s with isDrawing := false, shapePreviewImage := none
             hist := saveToHistory s.hist s.canvas }
  else s

/-- `handleTouchEnd` from page.tsx: identical guard and effects to
`stopDrawing` (after `preventDefault`). -/
def handleTouchEnd (s : AppState) : AppState :=
  if s.isDrawing then
    { s with isDrawing := false, shapePreviewImage := none
             hist := saveToHistory s.hist s.canvas }
  else s

/-- `handleResize` from page.tsx: `getImageData` over the whole canvas,
reassign `canvas.width` / `canvas.height` (which resets every pixel of
the buffer to transparent black), then `putImageData(saved, 0, 0)`, which
overwrites the overlap with the saved pixels verbatim. -/
def handleResize (s : Surface) (newW newH : Nat) : Surface :=
  { width := newW
    height := newH
    pix := fun x y => if x < s.width ∧ y < s.height then s.pix x y else transparentPixel }

/-- A concrete drawing-in-progress state used to exercise `draw` on
out-of-bounds pointer coordinates. -/
def cState : AppState :=
  { isDrawing := true
    drawingMode := .pen
    color := ⟨0, 0, 0, 255⟩
    brushSize := 5
    startPoint := some (0, 0)
    pathPoint := some (0, 0)
    shapePreviewImage := none
    canvas := whiteSurface 100 100
    hist := ⟨[], -1⟩ }

/-- A concrete idle (no open gesture) state. -/
def idleState : AppState :=
  { isDrawing := false
    drawingMode := .pen
    color := whitePixel
    brushSize := 5
    startPoint := none
    pathPoint := none
    shapePreviewImage := none
    canvas := whiteSurface 8 8
    hist := ⟨[], -1⟩ }

/-- A concrete two-layer stack with the second layer active. -/
def twoLayerStack : LayerState :=
  { layers := [⟨1, 1, true, none⟩, ⟨2, 2, true, none⟩], activeLayerIndex := 1 }

/-! ## Properties of the history log -/

/-- Claim C1: pushing a checkpoint while the cursor is not at the last
entry first truncates the log to `cursor + 1` entries, then appends the
snapshot; afterwards the log has `old cursor + 2` entries, the cursor
equals `length - 1`, and the entry at the cursor is the new snapshot. -/
theorem saveToHistory_nonTip_spec {α : Type} (log : HistoryLog α) (snap : α)
    (h0 : -1 ≤ log.cursor) (h1 : log.cursor < (log.entries.length : Int) - 1) :
    (saveToHistory log snap).entries = log.entries.take (log.cursor + 1).toNat ++ [snap] ∧
    ((saveToHistory log snap).entries.length : Int) = log.cursor + 2 ∧
    (saveToHistory log snap).cursor = ((saveToHistory log snap).entries.length : Int) - 1 ∧
    (saveToHistory log snap).entries[((saveToHistory log snap).cursor).toNat]? = some snap := by
  have hkept : (saveToHistory log snap).entries =
      log.entries.take (log.cursor + 1).toNat ++ [snap] := by
    unfold saveToHistory
    rw [if_pos h1]
  have hlen : (log.entries.take (log.cursor + 1).toNat).length = (log.cursor + 1).toNat := by
    rw [List.length_take]
    omega
  have hcur : (saveToHistory log snap).cursor = log.cursor + 1 := rfl
  refine ⟨hkept, ?_, ?_, ?_⟩
  · rw [hkept, List.length_append, hlen]
    simp only [List.length_singleton]
    omega
  · rw [hkept, hcur, List.length_append, hlen]
    simp only [List.length_singleton]
    omega
  · rw [hkept, hcur]
    rw [List.getElem?_append_right hlen.le, hlen, Nat.sub_self]
    rfl

/-- Witness for C1 at the concrete log `⟨[10, 20, 30], 0⟩`. -/
theorem saveToHistory_nonTip_witness :
    (-1 : Int) ≤ (⟨[10, 20, 30], 0⟩ : HistoryLog Nat).cursor ∧
    (⟨[10, 20, 30], 0⟩ : HistoryLog Nat).cursor <
      ((⟨[10, 20, 30], 0⟩ : HistoryLog Nat).entries.length : Int) - 1 ∧
    ((saveToHistory (⟨[10, 20, 30], 0⟩ : HistoryLog Nat) 99).entries.length : Int) = 0 + 2 :=
  ⟨by decide, by decide,
    (saveToHistory_nonTip_spec (⟨[10, 20, 30], 0⟩ : HistoryLog Nat) 99
      (by decide) (by decide)).2.1⟩

/-- Claim C2: at the boundary (cursor 0 or empty log for undo, cursor at
the last entry for redo) undo/redo return `none` and change nothing — not
the cursor, not the entries, not the displayed canvas; otherwise undo
decrements the cursor and returns (and displays) the entry at the new
cursor, and redo increments the cursor and returns the entry at the new
cursor. -/
theorem undo_redo_boundary_spec {α : Type} [Inhabited α] (s : CanvasHistState α)
    (hwf : -1 ≤ s.log.cursor ∧ s.log.cursor < (s.log.entries.length : Int)) :
    handleUndo s =
      (if 0 < s.log.cursor then
        (some (s.log.entries.getD (s.log.cursor - 1).toNat default),
          ⟨s.log.entries.getD (s.log.cursor - 1).toNat default,
            ⟨s.log.entries, s.log.cursor - 1⟩⟩)
      else (none, s)) ∧
    handleRedo s =
      (if s.log.cursor < (s.log.entries.length : Int) - 1 then
        (some (s.log.entries.getD (s.log.cursor + 1).toNat default),
          ⟨s.log.entries.getD (s.log.cursor + 1).toNat default,
            ⟨s.log.entries, s.log.cursor + 1⟩⟩)
      else (none, s)) := by
  obtain ⟨hlo, hhi⟩ := hwf
  constructor
  · unfold handleUndo
    by_cases hc : 0 < s.log.cursor
    · rw [if_pos hc, if_pos hc]
      have hidx : (s.log.cursor - 1).toNat < s.log.entries.length := by omega
      have hsome : s.log.entries[(s.log.cursor - 1).toNat]? =
          some (s.log.entries.getD (s.log.cursor - 1).toNat default) := by
        rw [List.getD_eq_getElem?_getD, List.getElem?_eq_getElem hidx]
        rfl
      rw [hsome]
    · rw [if_neg hc, if_neg hc]
  · unfold handleRedo
    by_cases hc : s.log.cursor < (s.log.entries.length : Int) - 1
    · rw [if_pos hc, if_pos hc]
      have hidx : (s.log.cursor + 1).toNat < s.log.entries.length := by omega
      have hsome : s.log.entries[(s.log.cursor + 1).toNat]? =
          some (s.log.entries.getD (s.log.cursor + 1).toNat default) := by
        rw [List.getD_eq_getElem?_getD, List.getElem?_eq_getElem hidx]
        rfl
      rw [hsome]
    · rw [if_neg hc, if_neg hc]

/-- Witness for C2 at the concrete state `⟨5, ⟨[1, 2, 3], 1⟩⟩`: undo
moves to entry 1, redo moves to entry 3. -/
theorem undo_redo_boundary_witness :
    handleUndo (⟨5, ⟨[1, 2, 3], 1⟩⟩ : CanvasHistState Nat) = (some 1, ⟨1, ⟨[1, 2, 3], 0⟩⟩) ∧
    handleRedo (⟨5, ⟨[1, 2, 3], 1⟩⟩ : CanvasHistState Nat) = (some 3, ⟨3, ⟨[1, 2, 3], 2⟩⟩) := by
  obtain ⟨h1, h2⟩ :=
    undo_redo_boundary_spec (⟨5, ⟨[1, 2, 3], 1⟩⟩ : CanvasHistState Nat) ⟨by decide, by decide⟩
  refine ⟨?_, ?_⟩
  · rw [h1]; decide
  · rw [h2]; decide

/-! ## Properties of the layer stack -/

/-- Indices in `enumFrom m t` all exceed `j` when `j < m`, so filtering
by `i != j` keeps every element. -/
theorem filter_enumFrom_of_lt {α : Type} :
    ∀ (t : List α) (m j : Nat), j < m →
      (List.enumFrom m t).filter (fun p => p.1 != j) = List.enumFrom m t := by
  intro t
  induction t with
  | nil => intro m j h; rfl
  | cons a u ih =>
    intro m j h
    rw [List.enumFrom_cons]
    have hm : (m != j) = true := by
      simp only [bne_iff_ne, ne_eq]
      omega
    simp only [List.filter_cons, hm, if_true]
    rw [ih (m + 1) j (by omega)]

/-- Filtering the index-annotated list by `i != index` and dropping the
annotations is exactly `eraseIdx`. -/
theorem enumFrom_filter_ne_eq_eraseIdx {α : Type} :
    ∀ (l : List α) (k i : Nat),
      ((List.enumFrom k l).filter (fun p => p.1 != k + i)).map (fun p => p.2) = l.eraseIdx i := by
  intro l
  induction l with
  | nil => intro k i; rfl
  | cons a t ih =>
    intro k i
    rw [List.enumFrom_cons]
    cases i with
    | zero =>
      rw [List.eraseIdx_cons_zero]
      have hdrop : (k != k + 0) = false := by simp
      simp only [List.filter_cons, hdrop]
      simp only [Bool.false_eq_true, if_false]
      rw [filter_enumFrom_of_lt t (k + 1) (k + 0) (by omega), List.enumFrom_map_snd]
    | succ j =>
      rw [List.eraseIdx_cons_succ]
      have hkeep : (k != k + (j + 1)) = true := by
        simp only [bne_iff_ne, ne_eq]
        omega
      simp only [List.filter_cons, hkeep, if_true, List.map_cons]
      have hih := ih (k + 1) j
      rw [show k + 1 + j = k + (j + 1) from by omega] at hih
      rw [hih]

/-- Claim C4: deleting a layer when only one layer remains is refused
(the guard fails and the stack is untouched — the `InvalidOperation` of
the spec surfaces as a rejected request); in every other case exactly the
layer at `index` is removed (the list becomes `take index ++ drop
(index + 1)`, one element shorter) and the active index is clamped so
that it remains a valid index into the shortened stack. -/
theorem deleteLayer_spec (st : LayerState) (index : Nat)
    (hact : st.activeLayerIndex < st.layers.length)
    (hidx : index < st.layers.length) :
    deleteLayer st index =
      (if 1 < st.layers.length then
        { layers := st.layers.take index ++ st.layers.drop (index + 1)
          activeLayerIndex :=
            if index ≤ st.activeLayerIndex then st.activeLayerIndex - 1
            else st.activeLayerIndex }
      else st) ∧
    (deleteLayer st index).layers.length =
      (if 1 < st.layers.length then st.layers.length - 1 else st.layers.length) ∧
    (deleteLayer st index).activeLayerIndex < (deleteLayer st index).layers.length := by
  have herase : (st.layers.enum.filter (fun p => p.1 != index)).map (fun p => p.2) =
      st.layers.eraseIdx index := by
    have h := enumFrom_filter_ne_eq_eraseIdx st.layers 0 index
    rw [Nat.zero_add] at h
    exact h
  have hlen : (st.layers.eraseIdx index).length = st.layers.length - 1 := by
    rw [List.length_eraseIdx, if_pos hidx]
  by_cases hg : 1 < st.layers.length
  · have hdel : deleteLayer st index =
        { layers := st.layers.eraseIdx index
          activeLayerIndex :=
            if index ≤ st.activeLayerIndex then st.activeLayerIndex - 1
            else st.activeLayerIndex } := by
      unfold deleteLayer
      rw [if_pos hg, herase]
    refine ⟨?_, ?_, ?_⟩
    · rw [hdel, if_pos hg, List.eraseIdx_eq_take_drop_succ]
    · rw [hdel, if_pos hg]
      exact hlen
    · rw [hdel]
      simp only
      rw [hlen]
      by_cases hc : index ≤ st.activeLayerIndex
      · rw [if_pos hc]
        omega
      · rw [if_neg hc]
        omega
  · have hdel : deleteLayer st index = st := by
      unfold deleteLayer
      rw [if_neg hg]
    refine ⟨?_, ?_, ?_⟩
    · rw [hdel, if_neg hg]
    · rw [hdel, if_neg hg]
    · rw [hdel]
      exact hact

/-- Witness for C4 at the concrete two-layer stack, deleting index 0. -/
theorem deleteLayer_spec_witness :
    twoLayerStack.activeLayerIndex < twoLayerStack.layers.length ∧
    0 < twoLayerStack.layers.length ∧
    (deleteLayer twoLayerStack 0).activeLayerIndex < (deleteLayer twoLayerStack 0).layers.length :=
  ⟨by decide, by decide, (deleteLayer_spec twoLayerStack 0 (by decide) (by decide)).2.2⟩

/-- Claim C5 counterexample: the stack reached from the initial state by
`addLayer; deleteLayer(0); addLayer` carries two layers both with id
`layer-2` — ids of reachable stacks are not pairwise distinct, because a
new id is derived from the current array length. -/
theorem layer_ids_not_unique_counterexample :
    ((applyLayerOps [LayerOp.add 4 4, LayerOp.del 0, LayerOp.add 4 4]).layers.map
      Layer.id) = [2, 2] ∧
    ¬ ((applyLayerOps [LayerOp.add 4 4, LayerOp.del 0, LayerOp.add 4 4]).layers.map
      Layer.id).Nodup := by
  constructor
  · rfl
  · intro h
    have h22 : ((applyLayerOps [LayerOp.add 4 4, LayerOp.del 0, LayerOp.add 4 4]).layers.map
        Layer.id) = [2, 2] := rfl
    rw [h22] at h
    simp at h

/-- The ids of the stack built by `n` additions and no deletions are
`1, 2, …, n + 1` in order. -/
theorem addsOnly_ids (w h : Nat) : ∀ n : Nat,
    (addsOnly w h n).layers.map Layer.id = (List.range (n + 1)).map (fun k => k + 1) := by
  intro n
  induction n with
  | zero => rfl
  | succ n ih =>
    have hlen : (addsOnly w h n).layers.length = n + 1 := by
      have := congrArg List.length ih
      simpa using this
    show ((addsOnly w h n).layers ++ [_]).map Layer.id = _
    rw [List.map_append, ih, List.map_singleton]
    show _ ++ [(addsOnly w h n).layers.length + 1] = _
    rw [hlen, List.range_succ (n + 1), List.map_append, List.map_singleton]

/-- Claim C5 amended: for every stack reachable from the initial state by
`addLayer` operations alone (no deletions), the layer ids are pairwise
distinct. -/
theorem layer_ids_nodup_adds_only (w h n : Nat) :
    ((addsOnly w h n).layers.map Layer.id).Nodup := by
  rw [addsOnly_ids]
  exact (List.nodup_range (n + 1)).map (fun a b hab => by omega)

/-! ## Properties of compositing and shape rendering -/

/-- A layer whose visible flag is false is skipped by the composite walk. -/
theorem redrawStep_invisible (acc : Surface) (layer : Layer)
    (h : layer.visible = false) : redrawStep acc layer = acc := by
  unfold redrawStep
  rw [h]
  simp

/-- The composite walk over any layer list equals the walk over just its
visible layers, from any accumulator. -/
theorem foldl_redrawStep_filter :
    ∀ (layers : List Layer) (acc : Surface),
      layers.foldl redrawStep acc =
        (layers.filter (fun l => l.visible)).foldl redrawStep acc := by
  intro layers
  induction layers with
  | nil => intro acc; rfl
  | cons l t ih =>
    intro acc
    by_cases hv : l.visible
    · rw [List.foldl_cons, List.filter_cons_of_pos hv, List.foldl_cons]
      exact ih (redrawStep acc l)
    · have hv2 : l.visible = false := by
        simpa using hv
      rw [List.foldl_cons, List.filter_cons_of_neg (by simp [hv2]),
        redrawStep_invisible acc l hv2]
      exact ih acc

/-- Claim C6: `redrawCanvas` fills the output with opaque white and then
draws, bottom-to-top, only the layers whose visible flag is true —
invisible layers contribute nothing regardless of their pixel content —
and with zero visible layers the output is exactly the opaque-white
background fill. -/
theorem redrawCanvas_spec (w h : Nat) (layers : List Layer) :
    redrawCanvas w h layers = redrawCanvas w h (layers.filter (fun l => l.visible)) ∧
    ((∀ l ∈ layers, l.visible = false) → redrawCanvas w h layers = whiteSurface w h) := by
  constructor
  · exact foldl_redrawStep_filter layers (whiteSurface w h)
  · intro hall
    have hnil : layers.filter (fun l => l.visible) = [] := by
      rw [List.filter_eq_nil_iff]
      intro l hl
      simp [hall l hl]
    unfold redrawCanvas
    rw [foldl_redrawStep_filter layers (whiteSurface w h), hnil, List.foldl_nil]

/-- Witness for C6 at a concrete one-layer stack whose only layer is
invisible but has non-white pixel content: the composite is plain white. -/
theorem redrawCanvas_spec_witness :
    (∀ l ∈ [Layer.mk 1 1 false (some (blankLayerSurface 2 3))], l.visible = false) ∧
    redrawCanvas 2 3 [Layer.mk 1 1 false (some (blankLayerSurface 2 3))] = whiteSurface 2 3 := by
  have hall : ∀ l ∈ [Layer.mk 1 1 false (some (blankLayerSurface 2 3))], l.visible = false := by
    intro l hl
    simp only [List.mem_singleton] at hl
    rw [hl]
  exact ⟨hall,
    (redrawCanvas_spec 2 3 [Layer.mk 1 1 false (some (blankLayerSurface 2 3))]).2 hall⟩

/-- Swapping anchor and current corner describes the same stroked
rectangle outline, pointwise. -/
theorem strokedRectMem_swap (a c : Int × Int) (lw : Int) (z : Int × Int) :
    strokedRectMem a.1 a.2 (c.1 - a.1) (c.2 - a.2) lw z =
      strokedRectMem c.1 c.2 (a.1 - c.1) (a.2 - c.2) lw z := by
  unfold strokedRectMem
  rw [show a.1 + (c.1 - a.1) = c.1 from by ring,
    show a.2 + (c.2 - a.2) = c.2 from by ring,
    show c.1 + (a.1 - c.1) = a.1 from by ring,
    show c.2 + (a.2 - c.2) = a.2 from by ring,
    min_comm c.1 a.1, max_comm c.1 a.1, min_comm c.2 a.2, max_comm c.2 a.2]

/-- Claim C7: the rectangle preview drawn from anchor `a` to current
point `c` produces exactly the same stroked outline pixels as the one
drawn from anchor `c` to current point `a`, for every pre-shape snapshot,
stroke color and line width — `ctx.rect` with negative width/height spans
the same corners. -/
theorem rectanglePreview_inversion (pre : Surface) (a c : Int × Int) (col : Pixel) (lw : Int) :
    drawShapePreview pre DrawingMode.rectangle a c col lw =
      drawShapePreview pre DrawingMode.rectangle c a col lw := by
  show paintIf pre _ col = paintIf pre _ col
  unfold paintIf
  congr 1
  funext x y
  rw [strokedRectMem_swap a c lw ((x : Int), (y : Int))]

/-! ## Pointer coordinates, resize, and idle events -/

/-- Claim C8 counterexample: a pointer event at client (500, 700) over a
100×100 canvas anchored at the origin yields the point (500, 700), far
outside the surface extents, and `draw` hands exactly that point to the
stroke renderer (the path advances to it) — nothing clamps it. -/
theorem coordinates_unclamped_counterexample :
    getCoordinates (500, 700) (some (0, 0)) = (500, 700) ∧
    (draw cState (500, 700) (some (0, 0))).pathPoint = some (500, 700) ∧
    ¬((500 : Int) < (cState.canvas.width : Int) ∧ (700 : Int) < (cState.canvas.height : Int)) := by
  refine ⟨rfl, rfl, by decide⟩

/-- Claim C8 amended: the coordinates used by the drawing operations are
the raw client offsets relative to the canvas origin — no clamping into
the surface bounds happens anywhere — and with a pen gesture open, a
pointer-move advances the path to exactly that unclamped point. -/
theorem draw_uses_raw_coordinates (s : AppState) (client : Int × Int)
    (o : Option (Int × Int)) (p : Int × Int)
    (hd : s.isDrawing = true) (hm : s.drawingMode = DrawingMode.pen)
    (hp : s.pathPoint = some p) :
    (draw s client o).pathPoint = some (getCoordinates client o) ∧
    getCoordinates client o =
      (match o with
       | some r => (client.1 - r.1, client.2 - r.2)
       | none => ((0 : Int), (0 : Int))) := by
  constructor
  · unfold draw
    rw [hd]
    simp only [Bool.true_eq_false, if_false, hm]
    unfold penStep
    rw [hp]
  · cases o with
    | some r => rfl
    | none => rfl

/-- Witness for the amended C8 at the concrete in-progress pen state. -/
theorem draw_uses_raw_coordinates_witness :
    cState.isDrawing = true ∧ cState.drawingMode = DrawingMode.pen ∧
    cState.pathPoint = some (0, 0) ∧
    (draw cState (500, 700) (some (3, 4))).pathPoint =
      some (getCoordinates (500, 700) (some (3, 4))) :=
  ⟨rfl, rfl, rfl,
    (draw_uses_raw_coordinates cState (500, 700) (some (3, 4)) (0, 0) rfl rfl rfl).1⟩

/-- Claim C9 counterexample: resizing a 1×1 all-white surface to 2×1
leaves the newly exposed pixel (1, 0) transparent black — the canvas
reset default — not the opaque-white background the claim requires. -/
theorem resize_background_counterexample :
    (handleResize (whiteSurface 1 1) 2 1).pix 1 0 = transparentPixel ∧
    transparentPixel ≠ whitePixel := by
  refine ⟨by decide, by decide⟩

/-- Claim C9 amended: a resize preserves the overlapping top-left region
of the old pixel content unchanged, and every newly exposed pixel (inside
the new bounds but outside the old) is transparent black, the state of a
freshly reset canvas buffer — not opaque white. -/
theorem handleResize_overlap_spec (s : Surface) (nw nh x y a b : Nat)
    (hx : x < s.width) (hy : y < s.height)
    (ha : a < nw) (hb : b < nh) (hab : ¬(a < s.width ∧ b < s.height)) :
    (handleResize s nw nh).width = nw ∧
    (handleResize s nw nh).height = nh ∧
    (handleResize s nw nh).pix x y = s.pix x y ∧
    (handleResize s nw nh).pix a b = transparentPixel := by
  refine ⟨rfl, rfl, ?_, ?_⟩
  · show (if x < s.width ∧ y < s.height then s.pix x y else transparentPixel) = s.pix x y
    rw [if_pos ⟨hx, hy⟩]
  · show (if a < s.width ∧ b < s.height then s.pix a b else transparentPixel) = transparentPixel
    rw [if_neg hab]

/-- Witness for the amended C9: resizing 100×100 to 200×50 preserves
pixel (99, 49) and exposes pixel (150, 10) as transparent. -/
theorem handleResize_overlap_witness :
    99 < (whiteSurface 100 100).width ∧ 49 < (whiteSurface 100 100).height ∧
    150 < 200 ∧ 10 < 50 ∧
    ¬(150 < (whiteSurface 100 100).width ∧ 10 < (whiteSurface 100 100).height) ∧
    (handleResize (whiteSurface 100 100) 200 50).pix 99 49 = (whiteSurface 100 100).pix 99 49 ∧
    (handleResize (whiteSurface 100 100) 200 50).pix 150 10 = transparentPixel := by
  have h := handleResize_overlap_spec (whiteSurface 100 100) 200 50 99 49 150 10
    (by decide) (by decide) (by decide) (by decide) (by decide)
  exact ⟨by decide, by decide, by decide, by decide, by decide, h.2.2.1, h.2.2.2⟩

/-- Claim C10: with no gesture open (`isDrawing = false`), a pointer-move
or touch-move leaves the whole state — in particular the canvas pixel
content — unchanged, and a pointer-up/leave or touch-end pushes no
history entry and leaves the history log and cursor unchanged; only
events between a pointer-down and the matching up/leave can mutate the
canvas or the history. -/
theorem idle_events_noop (s : AppState) (client : Int × Int) (o : Option (Int × Int))
    (h : s.isDrawing = false) :
    draw s client o = s ∧ handleTouchMove s client o = s ∧
    stopDrawing s = s ∧ handleTouchEnd s = s := by
  refine ⟨?_, ?_, ?_, ?_⟩
  · unfold draw
    rw [h]
    simp
  · unfold handleTouchMove
    rw [h]
    simp
  · unfold stopDrawing
    rw [h]
    simp
  · unfold handleTouchEnd
    rw [h]
    simp

/-- Witness for C10 at the concrete idle state. -/
theorem idle_events_noop_witness :
    idleState.isDrawing = false ∧
    draw idleState (1, 2) none = idleState ∧ stopDrawing idleState = idleState :=
  ⟨rfl, (idle_events_noop idleState (1, 2) none rfl).1,
    (idle_events_noop idleState (1, 2) none rfl).2.2.1⟩

/-! ## The history round trip -/

/-- A checkpoint pushed with the cursor at the tip appends without
truncating. -/
theorem saveToHistory_at_tip {α : Type} (log : HistoryLog α) (snap : α)
    (h : log.cursor = (log.entries.length : Int) - 1) :
    saveToHistory log snap = ⟨log.entries ++ [snap], log.cursor + 1⟩ := by
  unfold saveToHistory
  rw [if_neg (by omega)]

/-- Pushing a list of checkpoints from a tip-cursor state appends all of
them, leaves the cursor at the new tip, and leaves the canvas showing the
last pushed snapshot. -/
theorem pushAll_tip {α : Type} :
    ∀ (snaps : List α) (s : CanvasHistState α),
      s.log.cursor = (s.log.entries.length : Int) - 1 →
      (snaps.foldl pushCheckpoint s).log.entries = s.log.entries ++ snaps ∧
      (snaps.foldl pushCheckpoint s).log.cursor =
        (s.log.entries.length : Int) + snaps.length - 1 ∧
      (snaps.foldl pushCheckpoint s).canvas = snaps.getLastD s.canvas := by
  intro snaps
  induction snaps with
  | nil =>
    intro s h
    refine ⟨by simp, by simpa using h, rfl⟩
  | cons a t ih =>
    intro s h
    have hsave : saveToHistory s.log a = ⟨s.log.entries ++ [a], s.log.cursor + 1⟩ :=
      saveToHistory_at_tip s.log a h
    have hstate : pushCheckpoint s a = ⟨a, ⟨s.log.entries ++ [a], s.log.cursor + 1⟩⟩ := by
      unfold pushCheckpoint
      rw [hsave]
    have htip2 : (pushCheckpoint s a).log.cursor =
        ((pushCheckpoint s a).log.entries.length : Int) - 1 := by
      rw [hstate]
      simp only [List.length_append, List.length_singleton, List.length_cons,
        List.length_nil]
      push_cast
      omega
    obtain ⟨he, hc, hcv⟩ := ih (pushCheckpoint s a) htip2
    rw [List.foldl_cons]
    refine ⟨?_, ?_, ?_⟩
    · rw [he, hstate]
      simp
    · rw [hc, hstate]
      simp only [List.length_append, List.length_singleton, List.length_cons,
        List.length_nil]
      push_cast
      omega
    · rw [hcv, hstate]
      simp only
      rw [List.getLastD_cons]

/-- `k ≥ 1` undos from a cursor at least `k` inside a log move the cursor
back by `k` and display the entry there, leaving the entries intact. -/
theorem undoN_steps {α : Type} [Inhabited α] :
    ∀ (k : Nat) (s : CanvasHistState α), 1 ≤ k → (k : Int) ≤ s.log.cursor →
      s.log.cursor < (s.log.entries.length : Int) →
      undoN k s =
        ⟨s.log.entries.getD (s.log.cursor - k).toNat default,
          ⟨s.log.entries, s.log.cursor - k⟩⟩ := by
  intro k
  induction k with
  | zero => intro s h1; exact absurd h1 (by omega)
  | succ k ih =>
    intro s hk hc hlen
    have hpos : 0 < s.log.cursor := by omega
    have hidx : (s.log.cursor - 1).toNat < s.log.entries.length := by omega
    have hsome : s.log.entries[(s.log.cursor - 1).toNat]? =
        some (s.log.entries.getD (s.log.cursor - 1).toNat default) := by
      rw [List.getD_eq_getElem?_getD, List.getElem?_eq_getElem hidx]
      rfl
    have hstep : (handleUndo s).2 =
        ⟨s.log.entries.getD (s.log.cursor - 1).toNat default,
          ⟨s.log.entries, s.log.cursor - 1⟩⟩ := by
      unfold handleUndo
      rw [if_pos hpos, hsome]
    cases k with
    | zero =>
      show (handleUndo s).2 = _
      rw [hstep]
      have harith : s.log.cursor - ((0 : Nat) + 1 : Nat) = s.log.cursor - 1 := by
        push_cast
        ring
      rw [harith]
    | succ j =>
      show undoN (j + 1) (handleUndo s).2 = _
      rw [hstep]
      have hres := ih ⟨s.log.entries.getD (s.log.cursor - 1).toNat default,
          ⟨s.log.entries, s.log.cursor - 1⟩⟩ (by omega) (by push_cast; omega)
        (by simpa using by omega)
      rw [hres]
      have harith : s.log.cursor - 1 - ((j + 1 : Nat) : Int) =
          s.log.cursor - ((j + 1 + 1 : Nat) : Int) := by
        push_cast
        ring
      rw [harith]

/-- `k ≥ 1` redos from a cursor with at least `k` entries ahead move the
cursor forward by `k` and display the entry there, leaving the entries
intact. -/
theorem redoN_steps {α : Type} [Inhabited α] :
    ∀ (k : Nat) (s : CanvasHistState α), 1 ≤ k → -1 ≤ s.log.cursor →
      s.log.cursor + k < (s.log.entries.length : Int) →
      redoN k s =
        ⟨s.log.entries.getD (s.log.cursor + k).toNat default,
          ⟨s.log.entries, s.log.cursor + k⟩⟩ := by
  intro k
  induction k with
  | zero => intro s h1; exact absurd h1 (by omega)
  | succ k ih =>
    intro s hk hc hlen
    have hcond : s.log.cursor < (s.log.entries.length : Int) - 1 := by
      push_cast at hlen
      omega
    have hidx : (s.log.cursor + 1).toNat < s.log.entries.length := by
      push_cast at hlen
      omega
    have hsome : s.log.entries[(s.log.cursor + 1).toNat]? =
        some (s.log.entries.getD (s.log.cursor + 1).toNat default) := by
      rw [List.getD_eq_getElem?_getD, List.getElem?_eq_getElem hidx]
      rfl
    have hstep : (handleRedo s).2 =
        ⟨s.log.entries.getD (s.log.cursor + 1).toNat default,
          ⟨s.log.entries, s.log.cursor + 1⟩⟩ := by
      unfold handleRedo
      rw [if_pos hcond, hsome]
    cases k with
    | zero =>
      show (handleRedo s).2 = _
      rw [hstep]
      have harith : s.log.cursor + ((0 : Nat) + 1 : Nat) = s.log.cursor + 1 := by
        push_cast
        ring
      rw [harith]
    | succ j =>
      show redoN (j + 1) (handleRedo s).2 = _
      rw [hstep]
      have hres := ih ⟨s.log.entries.getD (s.log.cursor + 1).toNat default,
          ⟨s.log.entries, s.log.cursor + 1⟩⟩ (by omega) (by simpa using by omega)
        (by push_cast at hlen ⊢; omega)
      rw [hres]
      have harith : s.log.cursor + 1 + ((j + 1 : Nat) : Int) =
          s.log.cursor + ((j + 1 + 1 : Nat) : Int) := by
        push_cast
        ring
      rw [harith]

/-- Reading past the first list of an append at offset `i`. -/
theorem getD_append_left_length {α : Type} :
    ∀ (l1 l2 : List α) (i : Nat) (d : α), (l1 ++ l2).getD (l1.length + i) d = l2.getD i d := by
  intro l1
  induction l1 with
  | nil =>
    intro l2 i d
    rw [List.nil_append, List.length_nil, Nat.zero_add]
  | cons a t ih =>
    intro l2 i d
    rw [List.cons_append, List.length_cons,
      show t.length + 1 + i = (t.length + i) + 1 from by omega, List.getD_cons_succ]
    exact ih l2 i d

/-- The element at the last position of a nonempty list is its last
element, whatever the defaults. -/
theorem getD_last_of_ne_nil {α : Type} :
    ∀ (l : List α), l ≠ [] → ∀ (d e : α), l.getD (l.length - 1) d = l.getLastD e := by
  intro l
  induction l with
  | nil => intro hne; exact absurd rfl hne
  | cons a t ih =>
    intro _ d e
    cases t with
    | nil => rfl
    | cons b u =>
      rw [List.getLastD_cons]
      rw [show (a :: b :: u).length - 1 = ((b :: u).length - 1) + 1 from by
        simp only [List.length_cons]; omega]
      rw [List.getD_cons_succ]
      exact ih (by simp) d a

/-- Claim C3: after pushing checkpoints C1..Cn in order from any state
whose cursor sits at the tip of the log, undoing n−1 times and then
redoing n−1 times returns exactly to the state after the pushes: the
cursor sits at the tip entry (the one for Cn), and the displayed canvas
content is exactly Cn. -/
theorem history_roundtrip {α : Type} [Inhabited α] (s0 : CanvasHistState α) (snaps : List α)
    (htip : s0.log.cursor = (s0.log.entries.length : Int) - 1)
    (hne : snaps ≠ []) :
    redoN (snaps.length - 1) (undoN (snaps.length - 1) (snaps.foldl pushCheckpoint s0)) =
      snaps.foldl pushCheckpoint s0 ∧
    (snaps.foldl pushCheckpoint s0).canvas = snaps.getLastD s0.canvas ∧
    (snaps.foldl pushCheckpoint s0).log.cursor =
      ((snaps.foldl pushCheckpoint s0).log.entries.length : Int) - 1 := by
  obtain ⟨he, hc, hcv⟩ := pushAll_tip snaps s0 htip
  have hn : 1 ≤ snaps.length := List.length_pos.mpr hne
  have hlen1 : ((snaps.foldl pushCheckpoint s0).log.entries.length : Int) =
      (s0.log.entries.length : Int) + snaps.length := by
    rw [he]
    push_cast [List.length_append]
    ring
  refine ⟨?_, hcv, by rw [hlen1, hc]⟩
  cases Nat.lt_or_ge snaps.length 2 with
  | inl h2 =>
    have h1 : snaps.length - 1 = 0 := by omega
    rw [h1]
    rfl
  | inr h2 =>
    have hk1 : 1 ≤ snaps.length - 1 := by omega
    have hu := undoN_steps (snaps.length - 1) (snaps.foldl pushCheckpoint s0) hk1
      (by rw [hc]; omega) (by rw [hc, hlen1]; omega)
    rw [hu]
    have hr := redoN_steps (snaps.length - 1)
      (⟨(snaps.foldl pushCheckpoint s0).log.entries.getD
          ((snaps.foldl pushCheckpoint s0).log.cursor - (snaps.length - 1 : Nat)).toNat default,
        ⟨(snaps.foldl pushCheckpoint s0).log.entries,
          (snaps.foldl pushCheckpoint s0).log.cursor - (snaps.length - 1 : Nat)⟩⟩ :
        CanvasHistState α) hk1
      (by simp only; rw [hc]; omega)
      (by simp only; rw [hc, hlen1]; omega)
    rw [hr]
    simp only
    have harith : (snaps.foldl pushCheckpoint s0).log.cursor - (snaps.length - 1 : Nat) +
        (snaps.length - 1 : Nat) = (snaps.foldl pushCheckpoint s0).log.cursor := by
      ring
    rw [harith]
    have hcanvas : (snaps.foldl pushCheckpoint s0).log.entries.getD
        ((snaps.foldl pushCheckpoint s0).log.cursor).toNat default =
        (snaps.foldl pushCheckpoint s0).canvas := by
      have hidxeq : ((snaps.foldl pushCheckpoint s0).log.cursor).toNat =
          s0.log.entries.length + (snaps.length - 1) := by
        rw [hc]
        omega
      rw [hidxeq, he, getD_append_left_length]
      rw [getD_last_of_ne_nil snaps hne default s0.canvas]
      exact hcv.symm
    rw [hcanvas]

/-- Witness for C3: pushing 5, 6, 7 onto the empty log then undoing and
redoing twice lands back on the state showing 7 with the cursor at the
tip. -/
theorem history_roundtrip_witness :
    (⟨0, ⟨[], -1⟩⟩ : CanvasHistState Nat).log.cursor =
      ((⟨0, ⟨[], -1⟩⟩ : CanvasHistState Nat).log.entries.length : Int) - 1 ∧
    ([5, 6, 7] : List Nat) ≠ [] ∧
    ([5, 6, 7].foldl pushCheckpoint (⟨0, ⟨[], -1⟩⟩ : CanvasHistState Nat)).canvas =
      [5, 6, 7].getLastD 0 :=
  ⟨by decide, by decide,
    (history_roundtrip (⟨0, ⟨[], -1⟩⟩ : CanvasHistState Nat) [5, 6, 7]
      (by decide) (by decide)).2.1⟩
